import Mathlib

/- Verification development for the nginx-config-parser crate.

   The embedding below translates `src/lib.rs` (the logos-generated tokenizer
   and `Structure::parse`, the stack-based tree builder) and `src/types.rs`
   (the `TryFrom<Structure> for Directive` interpretation layer) into Lean.

   Conventions of the embedding:
   * Source positions are counted in characters; on the ASCII inputs used by
     the concrete theorems this coincides with Rust's byte offsets.  A lexical
     error is reported as the offset at which the failing match attempt
     started (the start of the span `logos` reports).
   * `\w` in the `Word` rule of the lexer is modelled by its ASCII fragment:
     ASCII alphanumerics plus the underscore.
   * Rust's `PathBuf`, `Url`, `SocketAddr` and `Duration` payloads are
     modelled as `String`/`Nat`; the fallible external parsers
     `SocketAddr::from_str` and `Url::parse` (std / url crate, not part of
     this repository) are abstracted as `String → Bool` oracles passed to
     `tryFromDirective`.  No claim depends on their behaviour.
-/

namespace Nginx

/-- Tokens of the lexer, `Token` in `src/lib.rs` (lines 6-32).  Each of
`comment`, `bracedString`, `quotedString` and `word` carries the full matched
slice, exactly as the logos-derived lexer stores `&'a str` of the match
(quotes, parentheses, the leading `#` and the terminating newline included). -/
inductive Token where
  | comment (s : String)
  | bracketOpen
  | newline
  | bracketClose
  | semicolon
  | bracedString (s : String)
  | quotedString (s : String)
  | word (s : String)
deriving DecidableEq, Repr

/-- Character class of the `Word` rule
`(\w|\d|\[|\]|=|\^|\$|:|-|\+|!|\*|~|\'|\.|\/)+` (lib.rs line 30): the ASCII
fragment of `\w` (alphanumerics and underscore) together with the listed
punctuation. -/
def isWordChar (c : Char) : Bool :=
  c.isAlphanum || c = '_' ||
    (c = '[' || c = ']' || c = '=' || c = '^' || c = '$' || c = ':' || c = '-' ||
     c = '+' || c = '!' || c = '*' || c = '~' || c = '\'' || c = '.' || c = '/')

/-- Word character class as the specification words it (spec section 3,
"Word: a maximal run of characters drawn from an allowed set (alphanumerics,
and `[ ] = ^ $ : - + ! * ~ ' . /`)").  This definition follows the spec's
words, to be compared with `isWordChar`, which is translated from the code. -/
def specWordChar (c : Char) : Bool :=
  c.isAlphanum ||
    (c = '[' || c = ']' || c = '=' || c = '^' || c = '$' || c = ':' || c = '-' ||
     c = '+' || c = '!' || c = '*' || c = '~' || c = '\'' || c = '.' || c = '/')

/-- One step of the lexer: skip the `[ \t]+` skip-rule, then match one token
by maximal munch, or fail at the current offset.  This models the logos rules
on lib.rs lines 6-32.  The rules are start-char disjoint, so the explicit
priorities of the source (`Semicolon` priority 3, `QuotedString` priority 4)
never break a tie.  Returns `none` at end of input, or the token together
with the remaining characters and the next offset. -/
def nextToken : List Char → Nat → Except Nat (Option (Token × List Char × Nat))
  | [], _ => .ok none
  | c :: cs, p =>
    if c = ' ' || c = '\t' then nextToken cs (p + 1)
    else if c = '\x7b' then .ok (some (.bracketOpen, cs, p + 1))
    else if c = '\x7d' then .ok (some (.bracketClose, cs, p + 1))
    else if c = '\n' then .ok (some (.newline, cs, p + 1))
    else if c = ';' then .ok (some (.semicolon, cs, p + 1))
    else if c = '#' then
      match cs.drop (cs.takeWhile (fun d => d ≠ '\n')).length with
      | '\n' :: rest => .ok (some (.comment (String.mk (c :: cs.takeWhile (fun d => d ≠ '\n') ++ ['\n'])), rest, p + 2 + (cs.takeWhile (fun d => d ≠ '\n')).length))
      | _ => .error p
    else if c = '(' then
      match cs.drop (cs.takeWhile (fun d => d ≠ ')')).length, cs.takeWhile (fun d => d ≠ ')') with
      | ')' :: rest, _ :: _ => .ok (some (.bracedString (String.mk (c :: cs.takeWhile (fun d => d ≠ ')') ++ [')'])), rest, p + 2 + (cs.takeWhile (fun d => d ≠ ')')).length))
      | _, _ => .error p
    else if c = '"' then
      match cs.drop (cs.takeWhile (fun d => d ≠ '"')).length with
      | '"' :: rest => .ok (some (.quotedString (String.mk (c :: cs.takeWhile (fun d => d ≠ '"') ++ ['"'])), rest, p + 2 + (cs.takeWhile (fun d => d ≠ '"')).length))
      | _ => .error p
    else if isWordChar c then
      .ok (some (.word (String.mk (c :: cs.takeWhile isWordChar)), cs.drop (cs.takeWhile isWordChar).length, p + 1 + (cs.takeWhile isWordChar).length))
    else .error p

/-- Whenever `nextToken` produces a token it strictly consumes input. -/
theorem nextToken_consumes : ∀ {cs : List Char} {p : Nat} {t : Token} {rest : List Char} {q : Nat},
    nextToken cs p = .ok (some (t, rest, q)) → rest.length < cs.length := by
  intro cs
  induction cs with
  | nil => intro p t rest q h; simp [nextToken] at h
  | cons c cs ih =>
    intro p t rest q h
    rw [nextToken] at h
    split_ifs at h with h1 h2 h3 h4 h5 h6 h7 h8 h9
    · exact Nat.lt_succ_of_lt (ih h)
    · simp only [Except.ok.injEq, Option.some.injEq, Prod.mk.injEq] at h
      obtain ⟨-, h2', -⟩ := h
      rw [← h2']
      exact Nat.lt_succ_self _
    · simp only [Except.ok.injEq, Option.some.injEq, Prod.mk.injEq] at h
      obtain ⟨-, h2', -⟩ := h
      rw [← h2']
      exact Nat.lt_succ_self _
    · simp only [Except.ok.injEq, Option.some.injEq, Prod.mk.injEq] at h
      obtain ⟨-, h2', -⟩ := h
      rw [← h2']
      exact Nat.lt_succ_self _
    · simp only [Except.ok.injEq, Option.some.injEq, Prod.mk.injEq] at h
      obtain ⟨-, h2', -⟩ := h
      rw [← h2']
      exact Nat.lt_succ_self _
    · split at h
      · rename_i rest' heq
        simp only [Except.ok.injEq, Option.some.injEq, Prod.mk.injEq] at h
        obtain ⟨-, h2', -⟩ := h
        have hlen := congrArg List.length heq
        simp only [List.length_drop, List.length_cons] at hlen
        rw [← h2']
        simp only [List.length_cons]
        omega
      · simp at h
    · split at h
      · rename_i rest' heq hne
        simp only [Except.ok.injEq, Option.some.injEq, Prod.mk.injEq] at h
        obtain ⟨-, h2', -⟩ := h
        have hlen := congrArg List.length heq
        simp only [List.length_drop, List.length_cons] at hlen
        rw [← h2']
        simp only [List.length_cons]
        omega
      · simp at h
    · split at h
      · rename_i rest' heq
        simp only [Except.ok.injEq, Option.some.injEq, Prod.mk.injEq] at h
        obtain ⟨-, h2', -⟩ := h
        have hlen := congrArg List.length heq
        simp only [List.length_drop, List.length_cons] at hlen
        rw [← h2']
        simp only [List.length_cons]
        omega
      · simp at h
    · simp only [Except.ok.injEq, Option.some.injEq, Prod.mk.injEq] at h
      obtain ⟨-, h2', -⟩ := h
      rw [← h2']
      simp only [List.length_drop, List.length_cons]
      omega

/-- Driver of the lexer: collect tokens until end of input or the first
lexical error, which is returned as-is (models `Token::lexer(..).spanned()`
being drained by the `loop` in `Structure::parse`, lib.rs lines 99-104).
The structural `fuel` argument makes the recursion computable by the kernel;
`nextToken_consumes` together with `tokenizeAux_fuel_irrel` shows the
fuel-exhausted branch is unreachable for the fuel chosen by `tokenize`. -/
def tokenizeAux : Nat → List Char → Nat → Except Nat (List Token)
  | 0, _, p => .error p
  | fuel + 1, cs, p =>
    match nextToken cs p with
    | .error e => .error e
    | .ok none => .ok []
    | .ok (some (t, rest, q)) =>
      match tokenizeAux fuel rest q with
      | .error e => .error e
      | .ok ts => .ok (t :: ts)

/-- Any fuel larger than the input length gives the same token stream:
the fuel-exhausted branch of `tokenizeAux` is never taken. -/
theorem tokenizeAux_fuel_irrel : ∀ (f g : Nat) (cs : List Char) (p : Nat),
    cs.length < f → cs.length < g → tokenizeAux f cs p = tokenizeAux g cs p := by
  intro f
  induction f with
  | zero => intro g cs p hf; omega
  | succ f ih =>
    intro g cs p hf hg
    match g, hg with
    | g + 1, _ =>
      rw [tokenizeAux, tokenizeAux]
      cases hn : nextToken cs p with
      | error e => rfl
      | ok v =>
        cases v with
        | none => rfl
        | some tv =>
          obtain ⟨t, rest, q⟩ := tv
          have hc := nextToken_consumes hn
          simp only [ih g rest q (by omega) (by omega)]

/-- The tokenizer: scan the whole input, producing the token sequence or the
offset of the first character at which no token rule matches. -/
def tokenize (s : String) : Except Nat (List Token) :=
  tokenizeAux (s.data.length + 1) s.data 0

/-- The output tree, `Structure` in lib.rs (lines 53-62): a flat `;`-closed
statement, or a braced block carrying its header args and children. -/
inductive Structure where
  | statement (args : List Token)
  | block (args : List Token) (children : List Structure)
deriving Repr

/-- Header args of a node, an observer corresponding to the `args()` accessor
(lib.rs lines 65-70). -/
def Structure.argsOf : Structure → List Token
  | .statement args => args
  | .block args _ => args

/-- Children of a node; `[]` for a statement.  Observer corresponding to the
`children()` accessor (lib.rs lines 71-76), total where the source accessor
is only called on blocks. -/
def Structure.childrenList : Structure → List Structure
  | .statement _ => []
  | .block _ children => children

/-- Whether a node is a `Block`. -/
def Structure.isBlockNode : Structure → Bool
  | .statement _ => false
  | .block _ _ => true

/-- State of the build loop in `Structure::parse` (lib.rs lines 91-97):
the stack of saved blocks, the current block (always a `Block` in the source;
represented here by its `args` and `children` fields), and the pending args
of the current statement accumulator. -/
structure BuildState where
  stack : List Structure
  curArgs : List Token
  curChildren : List Structure
  pending : List Token
deriving Repr

/-- One iteration of the token-consuming `loop` of `Structure::parse`
(lib.rs lines 106-156), translated branch by branch:
* `BracketOpen` pushes the current block and starts a new one whose header
  args are the pending args;
* `BracketClose` first appends the pending args as a trailing statement
  when non-empty, then, if the stack is non-empty, pops the parent, appends
  the current block to the parent's children, pushes the updated parent
  back onto the stack (lib.rs lines 129-132) and also makes the updated
  parent current (lines 133-136); a popped non-block is discarded by the
  inner `if let`;
* `Semicolon` appends the pending args as a statement unconditionally;
* comments and newlines are ignored;
* argument tokens are appended to the pending args. -/
def step (st : BuildState) : Token → BuildState
  | .bracketOpen =>
    { stack := .block st.curArgs st.curChildren :: st.stack
      curArgs := st.pending
      curChildren := []
      pending := [] }
  | .bracketClose =>
    let children' := if st.pending.length > 0 then st.curChildren ++ [.statement st.pending] else st.curChildren
    match st.stack with
    | [] => { st with curChildren := children', pending := [] }
    | .block pargs pchildren :: rest =>
      let newChildren := pchildren ++ [Structure.block st.curArgs children']
      { stack := .block pargs newChildren :: rest
        curArgs := pargs
        curChildren := newChildren
        pending := [] }
    | .statement _ :: rest =>
      { stack := rest, curArgs := st.curArgs, curChildren := children', pending := [] }
  | .semicolon =>
    { st with curChildren := st.curChildren ++ [.statement st.pending], pending := [] }
  | .comment _ => st
  | .newline => st
  | .quotedString s => { st with pending := st.pending ++ [.quotedString s] }
  | .bracedString s => { st with pending := st.pending ++ [.bracedString s] }
  | .word s => { st with pending := st.pending ++ [.word s] }

/-- Initial state of the build loop: empty stack, the root block with empty
args and children, empty pending args (lib.rs lines 91-97). -/
def initState : BuildState :=
  { stack := [], curArgs := [], curChildren := [], pending := [] }

/-- Folding the whole token stream through the loop. -/
def runBuild (ts : List Token) : BuildState :=
  ts.foldl step initState

/-- The value returned by `Structure::parse` after the loop: the pending
args are extended onto the current block's own args (lib.rs lines 159-161)
and the current block is returned (line 163). -/
def build (ts : List Token) : Structure :=
  .block ((runBuild ts).curArgs ++ (runBuild ts).pending) ((runBuild ts).curChildren)

/-- The whole pipeline `Structure::parse` (lib.rs lines 89-164): tokenize,
propagating the first lexical error, then fold the tree. -/
def parse (s : String) : Except Nat Structure :=
  (tokenize s).map build

mutual

/-- Re-flattening of a node: a statement as its args followed by `;`, a block
as its header args, `{`, the flattening of its children in order, and `}`. -/
def flattenStructure : Structure → List Token
  | .statement args => args ++ [.semicolon]
  | .block args children => args ++ [.bracketOpen] ++ flattenChildren children ++ [.bracketClose]

/-- Re-flattening of a child list, in order. -/
def flattenChildren : List Structure → List Token
  | [] => []
  | s :: ss => flattenStructure s ++ flattenChildren ss

end

/-- Re-flattening of the returned root: the root block represents the whole
file, so its own args are emitted followed by its flattened children, with no
surrounding braces. -/
def flattenRoot : Structure → List Token
  | .statement args => args ++ [.semicolon]
  | .block args children => args ++ flattenChildren children

/-- Rendering of a token by the `Display` impl (lib.rs lines 34-47); used by
`types.rs` via `format!("{}", s)` to read a statement's keyword and argument
text.  Note the impl re-wraps the already-delimited slices of
`QuotedString`/`BracedString` in a second pair of delimiters. -/
def Token.display : Token → String
  | .comment c => "# " ++ c.trim
  | .bracketOpen => "\x7b"
  | .bracketClose => "\x7d"
  | .semicolon => ";"
  | .bracedString s => "(" ++ s ++ ")"
  | .quotedString s => "\"" ++ s ++ "\""
  | .word s => s
  | .newline => "\n"

/-- Rust's `str::eq_ignore_ascii_case`. -/
def eqIgnoreAsciiCase (a b : String) : Bool :=
  a.toLower == b.toLower

/-- Location matchers (`Location` in types.rs lines 7-13); the regex payloads
are modelled by their pattern text. -/
inductive Location where
  | exact (s : String)
  | prefixLoc (s : String)
  | incasitive (pattern : String)
  | casitive (pattern : String)
  | virtualLoc (s : String)
deriving Repr

/-- Typed directives (`Directive` in types.rs lines 35-99).  `PathBuf`, `Url`
and `SocketAddr` payloads are modelled by the argument text; `Duration` by a
number of seconds. -/
inductive Directive where
  | errorLog (path : String) (level : Option String)
  | accessLog (path : String) (compressionEnabled : Bool)
  | addHeader (name : String) (value : String)
  | authBasic (realm : String)
  | authBasicUserFile (file : String)
  | http2 (enabled : Bool)
  | listen (sockAddr : String) (isDefault : Bool) (isHttp2 : Bool) (isHttp3 : Bool)
  | proxyHttpVersion (version : String)
  | proxyPass (addr : String)
  | proxyReadTimeout (timeout : Nat)
  | proxySetHeader (headerName : String) (headerValue : String)
  | proxyHideHeader (headerName : String)
  | returnDirective (code : Option Nat) (content : Option String)
  | serverName (name : String)
  | serverTokens (enabled : Bool)
  | sslCertificate (path : String)
  | sslCertificateKey (path : String)
  | sslEarlyData (enabled : Bool)
  | location (loc : Location)
deriving Repr

/-- Outcome of `TryFrom<Structure> for Directive`: `Ok`, `Err(())`, or a
panic via the `unreachable!()` arm. -/
inductive TryFromResult where
  | ok (d : Directive)
  | err
  | panicked
deriving Repr

/-- The conversion `TryFrom<Structure<..>> for Directive` (types.rs lines
101-183), translated arm by arm.  A `Block` falls through the outer `if let`
to `Err(())`.  For a `Statement`, the keyword is the `Display` rendering of
`args[0]`; each listed keyword mirrors the source arm, with
`args.get(i).ok_or(())?` modelled by an option match and `args.get(2..)`
by a length guard plus `drop 2`.  The external parsers `SocketAddr::from_str`
and `Url::parse` are the `sockAddrParses`/`urlParses` oracles.  Every keyword
not listed — including `Some` of an unknown word and `None` for empty args —
reaches the `_ => unreachable!()` arm (types.rs line 177), modelled as
`.panicked`. -/
def tryFromDirective (sockAddrParses urlParses : String → Bool) : Structure → TryFromResult
  | .block _ _ => .err
  | .statement args =>
    match (args.get? 0).map Token.display with
    | some "error_log" =>
      match args.get? 1 with
      | none => .err
      | some a1 => .ok (.errorLog a1.display ((args.get? 2).map Token.display))
    | some "access_log" =>
      match args.get? 1 with
      | none => .err
      | some a1 => .ok (.accessLog a1.display false)
    | some "add_header" =>
      match args.get? 1 with
      | none => .err
      | some a1 =>
        if 2 ≤ args.length then
          .ok (.addHeader a1.display (String.join ((args.drop 2).map (fun s => " " ++ s.display))))
        else .err
    | some "auth_basic" =>
      match args.get? 1 with
      | none => .err
      | some a1 => .ok (.authBasic a1.display)
    | some "auth_basic_user_file" =>
      match args.get? 1 with
      | none => .err
      | some a1 => .ok (.authBasicUserFile a1.display)
    | some "http2" =>
      match args.get? 1 with
      | none => .err
      | some a1 => .ok (.http2 (eqIgnoreAsciiCase a1.display "on" || !eqIgnoreAsciiCase a1.display "off"))
    | some "proxy_http_version" =>
      match args.get? 1 with
      | none => .err
      | some a1 => .ok (.proxyHttpVersion a1.display)
    | some "proxy_pass" =>
      match args.get? 1 with
      | none => .err
      | some a1 => if urlParses a1.display then .ok (.proxyPass a1.display) else .err
    | some "proxy_hide_header" =>
      match args.get? 1 with
      | none => .err
      | some a1 => .ok (.proxyHideHeader a1.display)
    | some "proxy_set_header" =>
      match args.get? 1 with
      | none => .err
      | some a1 =>
        match args.get? 2 with
        | none => .err
        | some a2 => .ok (.proxySetHeader a1.display a2.display)
    | some "server_name" =>
      if 2 ≤ args.length then
        .ok (.serverName (String.join ((args.drop 2).map Token.display)))
      else .err
    | some "ssl_cerificate" =>
      match args.get? 1 with
      | none => .err
      | some a1 => .ok (.sslCertificate a1.display)
    | some "ssl_certificate_key" =>
      match args.get? 1 with
      | none => .err
      | some a1 => .ok (.sslCertificateKey a1.display)
    | some "listen" =>
      match args.get? 1 with
      | none => .err
      | some a1 =>
        if sockAddrParses a1.display then
          .ok (.listen a1.display
            (args.any (fun s => eqIgnoreAsciiCase s.display "default_server"))
            (args.any (fun s => eqIgnoreAsciiCase s.display "http2"))
            (args.any (fun s => eqIgnoreAsciiCase s.display "http3")))
        else .err
    | _ => .panicked

/-- Every character of a `word` token produced by one lexer step satisfies
`isWordChar`: only the word branch of `nextToken` emits `Token.word`, and its
text is a prefix of the input selected by `isWordChar`. -/
theorem nextToken_word_chars : ∀ {cs : List Char} {p : Nat} {w : String} {rest : List Char} {q : Nat},
    nextToken cs p = .ok (some (.word w, rest, q)) → ∀ ch ∈ w.data, isWordChar ch = true := by
  intro cs
  induction cs with
  | nil => intro p w rest q h; simp [nextToken] at h
  | cons c cs ih =>
    intro p w rest q h
    rw [nextToken] at h
    split_ifs at h with h1 h2 h3 h4 h5 h6 h7 h8 h9
    · exact ih h
    · simp at h
    · simp at h
    · simp at h
    · simp at h
    · split at h
      · simp at h
      · simp at h
    · split at h
      · simp at h
      · simp at h
    · split at h
      · simp at h
      · simp at h
    · simp only [Except.ok.injEq, Option.some.injEq, Prod.mk.injEq, Token.word.injEq] at h
      obtain ⟨hw, -, -⟩ := h
      intro ch hch
      rw [← hw] at hch
      rcases List.mem_cons.mp hch with heq | hmem
      · rw [heq]; exact h9
      · exact List.mem_takeWhile_imp hmem

/-- Every character of any `word` token in the stream produced by the
tokenizer satisfies `isWordChar`. -/
theorem tokenizeAux_word_chars : ∀ (fuel : Nat) (cs : List Char) (p : Nat) (ts : List Token) (w : String),
    tokenizeAux fuel cs p = .ok ts → Token.word w ∈ ts → ∀ ch ∈ w.data, isWordChar ch = true := by
  intro fuel
  induction fuel with
  | zero => intro cs p ts w h; simp [tokenizeAux] at h
  | succ fuel ih =>
    intro cs p ts w h hmem
    rw [tokenizeAux] at h
    cases hn : nextToken cs p with
    | error e => rw [hn] at h; simp at h
    | ok v =>
      cases v with
      | none =>
        rw [hn] at h
        simp only [Except.ok.injEq] at h
        rw [← h] at hmem
        simp at hmem
      | some tv =>
        obtain ⟨t, rest, q⟩ := tv
        rw [hn] at h
        simp only [Except.ok.injEq] at h
        cases ht : tokenizeAux fuel rest q with
        | error e => rw [ht] at h; simp at h
        | ok ts' =>
          rw [ht] at h
          simp only [Except.ok.injEq] at h
          rw [← h] at hmem
          rcases List.mem_cons.mp hmem with heq | hmem'
          · subst heq
            exact nextToken_word_chars hn
          · exact ih rest q ts' w ht hmem'

/-- A maximal run of word characters at the head of the input is emitted as a
single `word` token: on a first character in the class, the lexer step takes
exactly the `takeWhile isWordChar` run. -/
theorem nextToken_word_run (c : Char) (cs : List Char) (p : Nat) (h : isWordChar c = true) :
    nextToken (c :: cs) p = .ok (some (.word (String.mk (c :: cs.takeWhile isWordChar)),
      cs.drop (cs.takeWhile isWordChar).length, p + 1 + (cs.takeWhile isWordChar).length)) := by
  have hsp : c ≠ ' ' := fun e => by rw [e] at h; exact absurd h (by decide)
  have htb : c ≠ '\t' := fun e => by rw [e] at h; exact absurd h (by decide)
  have hob : c ≠ '\x7b' := fun e => by rw [e] at h; exact absurd h (by decide)
  have hcb : c ≠ '\x7d' := fun e => by rw [e] at h; exact absurd h (by decide)
  have hnl : c ≠ '\n' := fun e => by rw [e] at h; exact absurd h (by decide)
  have hsc : c ≠ ';' := fun e => by rw [e] at h; exact absurd h (by decide)
  have hhash : c ≠ '#' := fun e => by rw [e] at h; exact absurd h (by decide)
  have hpar : c ≠ '(' := fun e => by rw [e] at h; exact absurd h (by decide)
  have hq : c ≠ '"' := fun e => by rw [e] at h; exact absurd h (by decide)
  rw [nextToken]
  simp [hsp, htb, hob, hcb, hnl, hsc, hhash, hpar, hq, h]

/-- Claim C1: for every input in which every opened block is later closed and
every statement is terminated by a semicolon, re-flattening the tree returned
by `Structure::parse` reproduces the original token sequence.  The claim
fails on the code: for the balanced, terminated input `a \x7b b \x7b c; \x7d \x7d`
the builder re-pushes the updated parent on every close (lib.rs lines
129-132), so the returned tree has header args `[a]` and a duplicated copy of
the nested subtree, and its re-flattening differs from the original token
sequence. -/
theorem c1_reflatten_fails_on_balanced_nested_input :
    (parse "a \x7b b \x7b c; \x7d \x7d").map flattenRoot =
      .ok [Token.word "a", .word "b", .bracketOpen, .word "c", .semicolon, .bracketClose,
           .word "a", .bracketOpen, .word "b", .bracketOpen, .word "c", .semicolon, .bracketClose, .bracketClose] ∧
    tokenize "a \x7b b \x7b c; \x7d \x7d" =
      .ok [Token.word "a", .bracketOpen, .word "b", .bracketOpen, .word "c", .semicolon, .bracketClose, .bracketClose] ∧
    ([Token.word "a", .word "b", .bracketOpen, .word "c", .semicolon, .bracketClose,
      .word "a", .bracketOpen, .word "b", .bracketOpen, .word "c", .semicolon, .bracketClose, .bracketClose] : List Token) ≠
      [Token.word "a", .bracketOpen, .word "b", .bracketOpen, .word "c", .semicolon, .bracketClose, .bracketClose] :=
  ⟨rfl, rfl, by decide⟩

/-- Claim C2: `http \x7b server \x7b listen 80; \x7d \x7d` should parse to a root
with empty header args containing a single `http` block containing a single
`server` block.  The claim fails on the code: because the close handler
pushes the updated parent back onto the stack as well as making it current,
the second close pops that same updated parent again, and the returned value
is a block with args `[http]` whose children contain the server block and a
duplicate of the whole `http` block. -/
theorem c2_nested_example_misparsed :
    parse "http \x7b server \x7b listen 80; \x7d \x7d" =
      .ok (.block [.word "http"]
        [.block [.word "server"] [.statement [.word "listen", .word "80"]],
         .block [.word "http"]
           [.block [.word "server"] [.statement [.word "listen", .word "80"]]]]) ∧
    (parse "http \x7b server \x7b listen 80; \x7d \x7d").map Structure.argsOf = .ok [Token.word "http"] ∧
    ([Token.word "http"] : List Token) ≠ [] :=
  ⟨rfl, rfl, by decide⟩

/-- Claim C3: at end of input the pending args are merged into the returned
root block's own header args — neither discarded nor emitted as a child
statement (first conjunct, and concretely `x y`); and for the unbalanced
input `a \x7b b;` the returned root's children contain no block: the blocks
still on the stack are unreachable from the result. -/
theorem c3_end_of_input_merge_and_loss :
    (∀ ts : List Token,
      build ts = .block ((runBuild ts).curArgs ++ (runBuild ts).pending) ((runBuild ts).curChildren)) ∧
    parse "x y" = .ok (.block [.word "x", .word "y"] []) ∧
    parse "a \x7b b;" = .ok (.block [.word "a"] [.statement [.word "b"]]) ∧
    (parse "a \x7b b;").map (fun s => (Structure.childrenList s).any Structure.isBlockNode) = .ok false :=
  ⟨fun _ => rfl, rfl, rfl, rfl⟩

/-- Closed instance of the first conjunct of `c3_end_of_input_merge_and_loss`. -/
theorem c3_end_of_input_merge_and_loss_witness :
    build [Token.word "x"] = .block ((runBuild [Token.word "x"]).curArgs ++ (runBuild [Token.word "x"]).pending)
      ((runBuild [Token.word "x"]).curChildren) :=
  c3_end_of_input_merge_and_loss.1 [Token.word "x"]

/-- Claim C4: `Structure::parse` returns `Err` exactly when the tokenizer
fails, the error is the first lexical error (concretely, offset 3 for
`ab @`), no tree accompanies an error, and the tree builder introduces no
error of its own: every `Ok` result is the built tree of a fully tokenized
input. -/
theorem c4_error_exactly_lexical :
    (∀ (s : String) (e : Nat), parse s = .error e ↔ tokenize s = .error e) ∧
    (∀ (s : String) (b : Structure), parse s = .ok b → ∃ ts, tokenize s = .ok ts ∧ b = build ts) ∧
    parse "ab @" = .error 3 ∧
    parse "@" = .error 0 := by
  refine ⟨fun s e => ?_, fun s b h => ?_, rfl, rfl⟩
  · unfold parse
    cases tokenize s <;> simp [Except.map]
  · unfold parse at h
    cases ht : tokenize s with
    | error e => rw [ht] at h; simp [Except.map] at h
    | ok ts =>
      rw [ht] at h
      simp only [Except.map, Except.ok.injEq] at h
      exact ⟨ts, rfl, h.symm⟩

/-- Closed instance of `c4_error_exactly_lexical`: the empty input parses to
the built tree of its (empty) token stream. -/
theorem c4_error_exactly_lexical_witness :
    ∃ ts, tokenize "" = .ok ts ∧ Structure.block [] [] = build ts :=
  c4_error_exactly_lexical.2.1 "" (.block [] []) rfl

/-- Claim C5 counterexample: a bare `;` is not a no-op.  The `Semicolon` arm
(lib.rs lines 142-147) has no emptiness guard, so `;` parses to a root with
one child statement whose args are empty, not to a root with no children. -/
theorem c5_bare_semicolon_counterexample :
    parse ";" = .ok (.block [] [.statement []]) ∧
    (parse ";").map (fun s => (Structure.childrenList s).length) = .ok 1 ∧
    (1 : Nat) ≠ 0 :=
  ⟨rfl, rfl, by decide⟩

/-- Claim C5 as amended: processing a `Semicolon` always appends a statement
carrying the pending args — even when they are empty — to the current
block's children and resets the pending args; a bare `;` therefore yields a
root with exactly one child, a statement with empty args. -/
theorem c5_semicolon_always_appends :
    (∀ st : BuildState, step st .semicolon =
      { st with curChildren := st.curChildren ++ [.statement st.pending], pending := [] }) ∧
    parse ";" = .ok (.block [] [.statement []]) ∧
    (parse ";").map (fun s => (Structure.childrenList s).map Structure.argsOf) = .ok [[]] :=
  ⟨fun _ => rfl, rfl, rfl⟩

/-- Claim C6: a `BracketClose` with an empty stack raises no error and only
flushes the pending args (appending them as a trailing statement when
non-empty) and resets them; the current block's header args, its previously
appended children and the (empty) stack are otherwise unchanged. -/
theorem c6_close_with_empty_stack (st : BuildState) (h : st.stack = []) :
    step st .bracketClose =
      { st with
        curChildren := st.curChildren ++ (if st.pending.length > 0 then [.statement st.pending] else [])
        pending := [] } := by
  obtain ⟨stack, ca, cc, pd⟩ := st
  simp only at h
  subst h
  by_cases hp : pd.length > 0 <;> simp [step, hp]

/-- Closed instance of `c6_close_with_empty_stack` at a state with one header
arg, no children and one pending arg. -/
theorem c6_close_with_empty_stack_witness :
    step { stack := [], curArgs := [Token.word "a"], curChildren := [], pending := [Token.word "b"] } .bracketClose =
      { stack := [], curArgs := [Token.word "a"],
        curChildren := [] ++ (if ([Token.word "b"] : List Token).length > 0 then [Structure.statement [Token.word "b"]] else [])
        pending := [] } :=
  c6_close_with_empty_stack
    { stack := [], curArgs := [Token.word "a"], curChildren := [], pending := [Token.word "b"] } rfl

/-- Claim C7: converting a statement whose keyword is outside the handled set
must not panic.  The claim fails on the code: the `_ => unreachable!()` arm
(types.rs line 177) panics, whatever the external parsers do — here on the
common statement `worker_processes 1;`. -/
theorem c7_unknown_keyword_panics :
    ∀ sockAddrParses urlParses : String → Bool,
      tryFromDirective sockAddrParses urlParses
        (.statement [.word "worker_processes", .word "1"]) = .panicked :=
  fun _ _ => rfl

/-- Closed instance of `c7_unknown_keyword_panics`. -/
theorem c7_unknown_keyword_panics_witness :
    tryFromDirective (fun _ => true) (fun _ => true)
      (.statement [.word "worker_processes", .word "1"]) = .panicked :=
  c7_unknown_keyword_panics (fun _ => true) (fun _ => true)

/-- Claim C8 counterexample: the claimed word-character set (alphanumerics
plus the listed punctuation) omits the underscore, which the code's `\w`
accepts: `_` is tokenized as a word although it is outside the claimed set. -/
theorem c8_word_charset_counterexample :
    tokenize "_" = .ok [.word "_"] ∧ specWordChar '_' = false ∧ '_' ∈ "_".data :=
  ⟨rfl, by decide, by decide⟩

/-- Claim C8 as amended: the word character set is the claimed set plus the
underscore; every character inside any word token the tokenizer emits lies in
this set, and a run starting with a character of the set is emitted as a
single word token spanning the maximal such run. -/
theorem c8_word_charset_amended :
    (∀ c : Char, isWordChar c = (specWordChar c || c = '_')) ∧
    (∀ (s : String) (ts : List Token) (w : String),
      tokenize s = .ok ts → Token.word w ∈ ts → ∀ ch ∈ w.data, isWordChar ch = true) ∧
    (∀ (c : Char) (cs : List Char) (p : Nat), isWordChar c = true →
      nextToken (c :: cs) p = .ok (some (.word (String.mk (c :: cs.takeWhile isWordChar)),
        cs.drop (cs.takeWhile isWordChar).length, p + 1 + (cs.takeWhile isWordChar).length))) := by
  refine ⟨fun c => ?_, fun s ts w h hm => tokenizeAux_word_chars _ _ _ _ _ h hm, nextToken_word_run⟩
  by_cases h1 : c.isAlphanum <;> by_cases h2 : c = '_' <;>
    simp [isWordChar, specWordChar, h1, h2]

/-- Closed instance of `c8_word_charset_amended`: the second character of the
word token produced for `ab` is a word character. -/
theorem c8_word_charset_amended_witness : isWordChar 'b' = true :=
  c8_word_charset_amended.2.1 "ab" [.word "ab"] "ab" rfl (by decide) 'b' (by decide)

/-- Claim C9: parsing the empty string succeeds and returns the root block
with empty header args and no children. -/
theorem c9_parse_empty_string : parse "" = .ok (.block [] []) := rfl

/-- Claim C10: the parse terminates on every finite input: each produced
token strictly consumes input characters, and `parse` always returns either
`Ok` or `Err`. -/
theorem c10_parse_total :
    (∀ (cs : List Char) (p : Nat) (t : Token) (rest : List Char) (q : Nat),
      nextToken cs p = .ok (some (t, rest, q)) → rest.length < cs.length) ∧
    (∀ s : String, (∃ b, parse s = .ok b) ∨ (∃ e, parse s = .error e)) := by
  refine ⟨fun cs p t rest q h => nextToken_consumes h, fun s => ?_⟩
  cases h : parse s with
  | ok b => exact .inl ⟨b, rfl⟩
  | error e => exact .inr ⟨e, rfl⟩

/-- Closed instance of `c10_parse_total`: lexing the word `a` out of `a;`
strictly consumes input. -/
theorem c10_parse_total_witness : ([';'] : List Char).length < (['a', ';'] : List Char).length :=
  c10_parse_total.1 ['a', ';'] 0 (.word "a") [';'] 1 rfl

end Nginx
